import Mathlib

/-!
# Verification of the FMCW radar log-parsing / track-reconstruction pipeline

Shallow embedding of the repository's Python sources:
* `src/model/ADR_visualize.py` — `load_tracks`, `load_detections`,
  `bin_to_range_km`, `bin_to_velocity_mps`, the RDM fold inside
  `plot_rdm_with_tracks`, and `analyze_notch_performance`;
* `src/model/visualize_rdm.py` — the cell-assignment fold inside `load_rdm`.

Python integers are modelled as `Int`; Python float arithmetic in the unit
converters and notch constants is modelled exactly over `ℚ` (the decimal
literals of the source are taken at their mathematical value).  A Python
exception anywhere inside a loader aborts the whole call, so every loader
returns an `Option`: `none` models "the call raised".
-/

namespace ADR

/-! ## Python string primitives

`line.strip().split()` splits on runs of whitespace and drops empty pieces;
`int(tok)` accepts an optional sign followed by decimal digits (the
underscore-grouping and surrounding-whitespace liberality of Python's `int`
cannot arise for tokens produced by a whitespace split of the logs);
`tok.split('=')[1]` is `eqField`, `none` standing for the `IndexError` /
`ValueError` the Python raises. -/

def isSpaceChar (c : Char) : Bool :=
  c = ' ' || c = '\t' || c = '\n' || c = '\r' || c = '\x0b' || c = '\x0c'

/-- Split a character list at every separator character, keeping empty pieces
(the behaviour of Python's `str.split('=')`); `cur` is the reversed piece
being accumulated. -/
def splitChars (sep : Char → Bool) : List Char → List Char → List String
  | [], cur => [String.mk cur.reverse]
  | c :: cs, cur =>
    if sep c then String.mk cur.reverse :: splitChars sep cs []
    else splitChars sep cs (c :: cur)

/-- `line.strip().split()`: split on whitespace runs, no empty tokens. -/
def splitWS (s : String) : List String :=
  (splitChars isSpaceChar s.toList []).filter fun t => t ≠ ""

def digitsVal (cs : List Char) : Option Nat :=
  match cs with
  | [] => none
  | _ => cs.foldlM (fun n c => if c.isDigit then some (n * 10 + (c.toNat - 48)) else none) 0

def parseInt (s : String) : Option Int :=
  match s.toList with
  | '-' :: rest => (digitsVal rest).map fun n => -(n : Int)
  | '+' :: rest => (digitsVal rest).map fun n => (n : Int)
  | cs => (digitsVal cs).map fun n => (n : Int)

def splitEq (s : String) : List String :=
  splitChars (fun c => c = '=') s.toList []

def eqField (s : String) : Option Int :=
  match (splitEq s).get? 1 with
  | some t => parseInt t
  | none => none

/-! ## Data model (`Track` dataclass, `load_tracks` state)

`load_tracks` keeps `tracks` (a dict, insertion-ordered), `scan_counts` and
`current_scan`; the loop-local variable `q` is only assigned on `TRK` lines
with at least five tokens, so its value survives between iterations — the
`lastQ` field models it, `none` standing for "not yet bound"
(referencing it then is Python's `UnboundLocalError`). -/

structure Track where
  id : Int
  range_bins : List Int
  doppler_bins : List Int
  velocities : List Int
  qualities : List Int
  scans : List Int
deriving DecidableEq

structure TrkState where
  tracks : List (Int × Track)
  scan_counts : List Int
  current_scan : Int
  lastQ : Option Int
deriving DecidableEq

def emptyTrack (i : Int) : Track :=
  { id := i, range_bins := [], doppler_bins := [], velocities := [],
    qualities := [], scans := [] }

def findTrack : List (Int × Track) → Int → Option Track
  | [], _ => none
  | (j, t) :: rest, i => if j = i then some t else findTrack rest i

def putTrack : List (Int × Track) → Int → Track → List (Int × Track)
  | [], i, t => [(i, t)]
  | (j, u) :: rest, i, t => if j = i then (i, t) :: rest else (j, u) :: putTrack rest i t

def trkTok : String := "TRK"
def scanEndTok : String := "SCAN_END"
def qKey : String := "Q="

def charsPre : List Char → List Char → Bool
  | [], _ => true
  | _ :: _, [] => false
  | p :: ps, c :: cs => p = c && charsPre ps cs

/-- Python's `s.startswith(pre)`. -/
def strStartsWith (s pre : String) : Bool :=
  charsPre pre.toList s.toList

/-- `int(parts[1])`, `int(parts[2].split('=')[1])`, `int(parts[3].split('=')[1])`:
the track id and the raw range / doppler fields of a `TRK` line. -/
def parseTrkFields (parts : List String) : Option (Int × Int × Int) :=
  match parts.get? 1, parts.get? 2, parts.get? 3 with
  | some idt, some rt, some dt =>
    match parseInt idt, eqField rt, eqField dt with
    | some i, some r, some d => some (i, r, d)
    | _, _, _ => none
  | _, _, _ => none

/-- `q = 0; for p in parts[4:]: if p.startswith('Q='): q = int(p.split('=')[1]); break`.
`none` = the located `Q=` token's integer failed to parse. -/
def scanQ (rest4 : List String) : Option Int :=
  match rest4.find? (fun p => strStartsWith p qKey) with
  | none => some 0
  | some t => eqField t

/-- The value the loop-local `q` has when the appends run: freshly scanned when
the line has at least five tokens (`if len(parts) >= 5`), otherwise whatever
the variable held from an earlier iteration. -/
def getQ (s : TrkState) (parts : List String) : Option Int :=
  if 5 ≤ parts.length then scanQ (parts.drop 4) else s.lastQ

def appendSample (t : Track) (r d q sc : Int) : Track :=
  { t with range_bins := t.range_bins ++ [r], doppler_bins := t.doppler_bins ++ [d],
           qualities := t.qualities ++ [q], scans := t.scans ++ [sc] }

/-- The four appends of the `TRK` branch, on the looked-up-or-created track,
tagging the sample with the current scan counter; the loop variable `q` now
holds the appended quality. -/
def addSample (s : TrkState) (i r d q : Int) : TrkState :=
  { s with
    tracks := putTrack s.tracks i
      (appendSample ((findTrack s.tracks i).getD (emptyTrack i)) r d q s.current_scan),
    lastQ := some q }

def pushScan (s : TrkState) (active : Int) : TrkState :=
  { s with scan_counts := s.scan_counts ++ [active], current_scan := s.current_scan + 1 }

/-- One iteration of the `load_tracks` loop, on the already-split tokens of a
line: `if not parts: continue`, then dispatch on `parts[0]`.  `none` models an
uncaught exception (which aborts `load_tracks`). -/
def processTokens (s : TrkState) : List String → Option TrkState
  | [] => some s
  | p0 :: rest =>
    if p0 = trkTok then
      match parseTrkFields (p0 :: rest) with
      | none => none
      | some (i, r, d) =>
        match getQ s (p0 :: rest) with
        | none => none
        | some q => some (addSample s i r d q)
    else if p0 = scanEndTok then
      match rest.head?.bind eqField with
      | none => none
      | some active => some (pushScan s active)
    else some s

def processLine (s : TrkState) (line : String) : Option TrkState :=
  processTokens s (splitWS line)

def loadTracksAux : TrkState → List String → Option TrkState
  | s, [] => some s
  | s, l :: ls =>
    match processLine s l with
    | none => none
    | some s' => loadTracksAux s' ls

def initTrkState : TrkState :=
  { tracks := [], scan_counts := [], current_scan := 0, lastQ := none }

/-- `load_tracks`, from the list of lines of the file. -/
def loadTracks (lines : List String) : Option TrkState :=
  loadTracksAux initTrkState lines

/-! ## `load_detections` -/

def parseDetTokens (parts : List String) : Option (Int × Int × Int) :=
  match parts.get? 0, parts.get? 1, parts.get? 2 with
  | some rt, some dt, some mt =>
    match parseInt rt, parseInt dt, parseInt mt with
    | some r, some d, some m => some (r, d, m)
    | _, _, _ => none
  | _, _, _ => none

/-- One iteration of the `load_detections` loop: `if len(parts) == 3:` append
the parsed triple, otherwise the line contributes nothing. -/
def stepDet (dets : List (Int × Int × Int)) (parts : List String) :
    Option (List (Int × Int × Int)) :=
  if parts.length = 3 then
    match parseDetTokens parts with
    | none => none
    | some t => some (dets ++ [t])
  else some dets

def loadDetectionsAux : List (Int × Int × Int) → List String → Option (List (Int × Int × Int))
  | ds, [] => some ds
  | ds, l :: ls =>
    match stepDet ds (splitWS l) with
    | none => none
    | some ds' => loadDetectionsAux ds' ls

def loadDetections (lines : List String) : Option (List (Int × Int × Int)) :=
  loadDetectionsAux [] lines

/-! ## Radar parameters (module-level constants of `ADR_visualize.py`)

The float constants are modelled by their exact decimal values in `ℚ`. -/

def N_RANGE : Int := 1024
def N_DOPPLER : Int := 128
def MAX_RANGE_KM : ℚ := 120
def WAVELENGTH_M : ℚ := 1 / 10
def PRF_HZ : List ℚ := [8000, 9000, 10000]
def SCAN_RATE : ℚ := 2
def NOTCH_TIME : ℚ := 30

/-! ## Unit converters (`bin_to_range_km`, `bin_to_velocity_mps`) -/

def bin_to_range_km (bin_idx : ℚ) : ℚ :=
  (bin_idx / (N_RANGE : ℚ)) * MAX_RANGE_KM

/-- `PRF_HZ[prf_idx % 3]` (the index is always in bounds, `% 3` first). -/
def prfAt (prf_idx : Nat) : ℚ :=
  (PRF_HZ.get? (prf_idx % 3)).getD 0

def bin_to_velocity_mps (doppler_bin : ℚ) (prf_idx : Nat) : ℚ :=
  let centered := doppler_bin - (N_DOPPLER : ℚ) / 2
  let prf := prfAt prf_idx
  let fd := centered * prf / (N_DOPPLER : ℚ)
  fd * WAVELENGTH_M / 2

/-- The converter at its Python default argument `prf_idx=0`. -/
def bin_to_velocity_mps0 (doppler_bin : ℚ) : ℚ :=
  bin_to_velocity_mps doppler_bin 0

/-- Modelled from the spec (§4.2): `range_bin_to_km(bin) = (bin / N_RANGE) * MAX_RANGE_KM`
— written from the spec's formula, to be compared with `bin_to_range_km`. -/
def range_bin_to_km (bin : ℚ) : ℚ :=
  (bin / (N_RANGE : ℚ)) * MAX_RANGE_KM

/-- Modelled from the spec (§4.2): `doppler_bin_to_mps(bin, prf_index) =
((bin − N_DOPPLER/2) * PRF[prf_index mod 3] / N_DOPPLER) * (WAVELENGTH_M / 2)`
— written from the spec's formula, to be compared with `bin_to_velocity_mps`. -/
def doppler_bin_to_mps (bin : ℚ) (prf_index : Nat) : ℚ :=
  ((bin - (N_DOPPLER : ℚ) / 2) * prfAt prf_index / (N_DOPPLER : ℚ)) * (WAVELENGTH_M / 2)

/-! ## Range-Doppler map folds

`plot_rdm_with_tracks` (model file): `rdm = np.zeros((N_DOPPLER, N_RANGE))`
then `for r, d, mag in dets: if 0 <= r < N_RANGE and 0 <= d < N_DOPPLER:
rdm[int(d), int(r)] = max(rdm[int(d), int(r)], mag)`.  The grid is a function
from (doppler index, range index) to the cell value. -/

def rdmUpdate (g : Int → Int → Int) (det : Int × Int × Int) : Int → Int → Int :=
  match det with
  | (r, d, mag) =>
    if 0 ≤ r ∧ r < N_RANGE ∧ 0 ≤ d ∧ d < N_DOPPLER then
      fun d' r' => if d' = d ∧ r' = r then max (g d' r') mag else g d' r'
    else g

def zeroGrid : Int → Int → Int := fun _ _ => 0

def buildRDM (dets : List (Int × Int × Int)) : Int → Int → Int :=
  dets.foldl rdmUpdate zeroGrid

/-- The magnitudes of the in-range detections landing on cell `(d, r)`. -/
def magsAt (dets : List (Int × Int × Int)) (d r : Int) : List Int :=
  (dets.filter fun det =>
    decide (0 ≤ det.1 ∧ det.1 < N_RANGE ∧ 0 ≤ det.2.1 ∧ det.2.1 < N_DOPPLER ∧
      det.2.1 = d ∧ det.1 = r)).map fun det => det.2.2

/-- `load_rdm` of `visualize_rdm.py`: `rdm = np.zeros((N_RANGE, N_DOPPLER))`
then `for row in data: r, d, mag = row; if 0 <= r < N_RANGE and
0 <= d < N_DOPPLER: rdm[r, d] = mag` — plain assignment, not a max.  The grid
is a function from (range index, doppler index); the `np.loadtxt` file reading
is elided, the fold starts from the already-parsed integer rows. -/
def loadRdmStep (g : Int → Int → Int) (row : Int × Int × Int) : Int → Int → Int :=
  match row with
  | (r, d, mag) =>
    if 0 ≤ r ∧ r < N_RANGE ∧ 0 ≤ d ∧ d < N_DOPPLER then
      fun r' d' => if r' = r ∧ d' = d then mag else g r' d'
    else g

def load_rdm (rows : List (Int × Int × Int)) : Int → Int → Int :=
  rows.foldl loadRdmStep zeroGrid

/-! ## Notch-maneuver analysis (`analyze_notch_performance`)

`notch_start_scan = int(NOTCH_TIME * SCAN_RATE)` and
`notch_end_scan = int((NOTCH_TIME + 10) * SCAN_RATE)`; both products are
positive, where Python's `int()` truncation coincides with the floor. -/

def notch_start_scan : Int := (NOTCH_TIME * SCAN_RATE).floor
def notch_end_scan : Int := ((NOTCH_TIME + 10) * SCAN_RATE).floor

def pre_notch (s : Int) : Bool := decide (s < notch_start_scan)
def during_notch (s : Int) : Bool :=
  decide (notch_start_scan ≤ s) && decide (s ≤ notch_end_scan)
def post_notch (s : Int) : Bool := decide (notch_end_scan < s)

structure NotchReport where
  id : Int
  lostDuring : Bool
  enteredNotch : Bool
  notRecovered : Bool
deriving DecidableEq

/-- The per-track body of the `analyze_notch_performance` loop.  A track with
fewer than 5 samples, or with no sample before `notch_start_scan`, is skipped
(`continue`); an analyzed track yields its continuity classification: `lostDuring`
= no sample in the during window, `notRecovered` = no sample after the window,
`enteredNotch` = some during-window sample has `|velocity| < 20` m/s (velocities
from `bin_to_velocity_mps` at the default PRF).  The printed window-mean
qualities/velocities are presentation only and are not modelled. -/
def analyzeTrack (trk : Track) : Option NotchReport :=
  if trk.scans.length < 5 then none
  else if !(trk.scans.any pre_notch) then none
  else some
    { id := trk.id,
      lostDuring := !(trk.scans.any during_notch),
      enteredNotch := (trk.scans.zip trk.doppler_bins).any fun sd =>
        during_notch sd.1 && decide (|bin_to_velocity_mps0 (sd.2 : ℚ)| < 20),
      notRecovered := !(trk.scans.any post_notch) }

def analyzeNotch (ts : List Track) : List NotchReport :=
  ts.filterMap analyzeTrack

/-! ## Derived definitions used by the statements -/

/-- How much one processed line advances the scan counter. -/
def scanEndInc : List String → Int
  | [] => 0
  | p0 :: _ => if p0 = scanEndTok then 1 else 0

/-- The number of `SCAN_END` lines in a chunk of the log. -/
def countScanEnd : List String → Int
  | [] => 0
  | l :: ls => scanEndInc (splitWS l) + countScanEnd ls

/-- The parallel-array invariant of a `Track` (§3 of the spec): the four
per-sample series have the same length. -/
def eqLens (t : Track) : Prop :=
  t.range_bins.length = t.scans.length ∧ t.doppler_bins.length = t.scans.length ∧
    t.qualities.length = t.scans.length

/-- Expected state for the spec's two-sample `TRK` example. -/
def twoSampleState : TrkState :=
  { tracks := [(1, { id := 1, range_bins := [400, 404], doppler_bins := [68, 70],
                     velocities := [], qualities := [10, 9], scans := [0, 1] })],
    scan_counts := [1], current_scan := 1, lastQ := some 9 }

/-- Expected state for a five-token `TRK` line with no `Q=` token. -/
def defaultQState : TrkState :=
  { tracks := [(7, { id := 7, range_bins := [1], doppler_bins := [2],
                     velocities := [], qualities := [0], scans := [0] })],
    scan_counts := [], current_scan := 0, lastQ := some 0 }

/-- Expected state for a four-token `TRK` line following a quality-bearing one:
the second sample records the stale quality 7 carried over from the first. -/
def staleQState : TrkState :=
  { tracks := [(1, { id := 1, range_bins := [1, 3], doppler_bins := [2, 4],
                     velocities := [], qualities := [7, 7], scans := [0, 0] })],
    scan_counts := [], current_scan := 0, lastQ := some 7 }

/-- A track with four samples, all of them pre-notch. -/
def fourSampleTrack : Track :=
  { id := 2, range_bins := [], doppler_bins := [], velocities := [],
    qualities := [], scans := [0, 1, 2, 3] }

/-- A track with five samples, none of them pre-notch. -/
def noPreTrack : Track :=
  { id := 3, range_bins := [], doppler_bins := [], velocities := [],
    qualities := [], scans := [60, 61, 62, 63, 64] }

/-- Expected state for a `SCAN_END` line carrying an extra trailing token:
the count field is read, the extra token is never looked at. -/
def extraTokState : TrkState :=
  { tracks := [], scan_counts := [1], current_scan := 1, lastQ := none }

/-- Expected state for a long-form `TRK` line whose `VR=` field is
non-numeric: the parser never reads `VR=`, so the line parses normally. -/
def unreadVRState : TrkState :=
  { tracks := [(1, { id := 1, range_bins := [2], doppler_bins := [3],
                     velocities := [], qualities := [5], scans := [0] })],
    scan_counts := [], current_scan := 0, lastQ := some 5 }

/-! ## Helper lemmas -/

lemma trkTok_ne_scanEndTok : trkTok ≠ scanEndTok := by decide

lemma findTrack_putTrack_self (ts : List (Int × Track)) (i : Int) (t : Track) :
    findTrack (putTrack ts i t) i = some t := by
  induction ts with
  | nil => simp [putTrack, findTrack]
  | cons p rest ih =>
    obtain ⟨j, u⟩ := p
    by_cases hj : j = i
    · simp [putTrack, hj, findTrack]
    · simp [putTrack, hj, findTrack, ih]

lemma findTrack_putTrack_ne (ts : List (Int × Track)) (i j : Int) (t : Track)
    (hne : j ≠ i) : findTrack (putTrack ts i t) j = findTrack ts j := by
  induction ts with
  | nil =>
    simp only [putTrack, findTrack]
    rw [if_neg fun h => hne h.symm]
  | cons p rest ih =>
    obtain ⟨k, u⟩ := p
    by_cases hk : k = i
    · subst hk
      simp only [putTrack, if_pos rfl, findTrack]
      rw [if_neg fun h => hne h.symm, if_neg fun h => hne h.symm]
    · simp only [putTrack, if_neg hk, findTrack]
      by_cases hkj : k = j
      · rw [if_pos hkj, if_pos hkj]
      · rw [if_neg hkj, if_neg hkj, ih]

/-- Stepping one line moves the scan counter by exactly `scanEndInc`:
`+1` on a successfully processed `SCAN_END` line, `0` otherwise. -/
lemma processTokens_scan (s : TrkState) (parts : List String) (s' : TrkState)
    (h : processTokens s parts = some s') :
    s'.current_scan = s.current_scan + scanEndInc parts := by
  cases parts with
  | nil =>
    simp only [processTokens, Option.some.injEq] at h
    subst h
    simp [scanEndInc]
  | cons p0 rest =>
    simp only [processTokens] at h
    simp only [scanEndInc]
    by_cases hp : p0 = trkTok
    · subst hp
      rw [if_pos rfl] at h
      rw [if_neg trkTok_ne_scanEndTok]
      cases hpf : parseTrkFields (trkTok :: rest) with
      | none => rw [hpf] at h; cases h
      | some v =>
        obtain ⟨i, r, d⟩ := v
        rw [hpf] at h
        cases hq : getQ s (trkTok :: rest) with
        | none => rw [hq] at h; cases h
        | some q =>
          rw [hq] at h
          cases h
          simp [addSample]
    · rw [if_neg hp] at h
      by_cases hs : p0 = scanEndTok
      · subst hs
        rw [if_pos rfl] at h
        rw [if_pos rfl]
        cases ha : rest.head?.bind eqField with
        | none => rw [ha] at h; cases h
        | some active =>
          rw [ha] at h
          cases h
          simp [pushScan]
      · rw [if_neg hs] at h
        cases h
        simp [hs]

/-- Stepping one line either leaves a given track id's entry alone or appends
exactly one sample to it, tagged with the pre-step scan counter. -/
lemma processTokens_tracks (s : TrkState) (parts : List String) (s' : TrkState)
    (h : processTokens s parts = some s') (i : Int) :
    findTrack s'.tracks i = findTrack s.tracks i ∨
      ∃ r d q, findTrack s'.tracks i =
        some (appendSample ((findTrack s.tracks i).getD (emptyTrack i)) r d q s.current_scan) := by
  cases parts with
  | nil =>
    simp only [processTokens, Option.some.injEq] at h
    subst h
    exact Or.inl rfl
  | cons p0 rest =>
    simp only [processTokens] at h
    by_cases hp : p0 = trkTok
    · subst hp
      rw [if_pos rfl] at h
      cases hpf : parseTrkFields (trkTok :: rest) with
      | none => rw [hpf] at h; cases h
      | some v =>
        obtain ⟨j, r, d⟩ := v
        rw [hpf] at h
        cases hq : getQ s (trkTok :: rest) with
        | none => rw [hq] at h; cases h
        | some q =>
          rw [hq] at h
          cases h
          by_cases hij : i = j
          · subst hij
            refine Or.inr ⟨r, d, q, ?_⟩
            simp [addSample, findTrack_putTrack_self]
          · refine Or.inl ?_
            simp [addSample, findTrack_putTrack_ne _ _ _ _ hij]
    · rw [if_neg hp] at h
      by_cases hs : p0 = scanEndTok
      · subst hs
        rw [if_pos rfl] at h
        cases ha : rest.head?.bind eqField with
        | none => rw [ha] at h; cases h
        | some active =>
          rw [ha] at h
          cases h
          exact Or.inl rfl
      · rw [if_neg hs] at h
        cases h
        exact Or.inl rfl

/-- Over a whole run, the scan counter advances by the number of `SCAN_END`
lines. -/
lemma loadTracksAux_scan (lines : List String) (s0 s : TrkState)
    (h : loadTracksAux s0 lines = some s) :
    s.current_scan = s0.current_scan + countScanEnd lines := by
  induction lines generalizing s0 with
  | nil =>
    cases h
    simp [countScanEnd]
  | cons l ls ih =>
    unfold loadTracksAux at h
    cases hl : processLine s0 l with
    | none => rw [hl] at h; cases h
    | some s1 =>
      rw [hl] at h
      have h1 := processTokens_scan s0 (splitWS l) s1 hl
      have h2 := ih s1 h
      rw [h2, h1, countScanEnd]
      ring

lemma eqLens_emptyTrack (i : Int) : eqLens (emptyTrack i) := by
  simp [eqLens, emptyTrack]

lemma eqLens_appendSample (t : Track) (r d q sc : Int) (h : eqLens t) :
    eqLens (appendSample t r d q sc) := by
  obtain ⟨h1, h2, h3⟩ := h
  simp [eqLens, appendSample, h1, h2, h3]

lemma processTokens_eqLens (s : TrkState) (parts : List String) (s' : TrkState)
    (h : processTokens s parts = some s')
    (inv : ∀ i t, findTrack s.tracks i = some t → eqLens t) :
    ∀ i t, findTrack s'.tracks i = some t → eqLens t := by
  intro i t ht
  rcases processTokens_tracks s parts s' h i with he | ⟨r, d, q, he⟩
  · exact inv i t (he ▸ ht)
  · rw [he] at ht
    cases ht
    cases hf : findTrack s.tracks i with
    | none => exact eqLens_appendSample _ _ _ _ _ (eqLens_emptyTrack i)
    | some u => exact eqLens_appendSample _ _ _ _ _ (inv i u hf)

lemma loadTracksAux_eqLens (lines : List String) (s0 s : TrkState)
    (h : loadTracksAux s0 lines = some s)
    (inv : ∀ i t, findTrack s0.tracks i = some t → eqLens t) :
    ∀ i t, findTrack s.tracks i = some t → eqLens t := by
  induction lines generalizing s0 with
  | nil => cases h; exact inv
  | cons l ls ih =>
    unfold loadTracksAux at h
    cases hl : processLine s0 l with
    | none => rw [hl] at h; cases h
    | some s1 =>
      rw [hl] at h
      exact ih s1 h (processTokens_eqLens s0 (splitWS l) s1 hl inv)

lemma find?_first {α : Type} (p : α → Bool) (pre : List α) (t : α) (post : List α)
    (hpre : ∀ x ∈ pre, p x = false) (ht : p t = true) :
    (pre ++ t :: post).find? p = some t := by
  induction pre with
  | nil => simp [List.find?, ht]
  | cons a as ih =>
    have ha := hpre a (by simp)
    simp only [List.cons_append, List.find?, ha]
    exact ih fun x hx => hpre x (by simp [hx])

lemma le_foldl_max (L : List Int) (a : Int) : a ≤ L.foldl max a := by
  induction L generalizing a with
  | nil => simp
  | cons b bs ih => exact le_trans (le_max_left a b) (ih (max a b))

lemma mem_le_foldl_max (L : List Int) (m : Int) (hm : m ∈ L) :
    ∀ a, m ≤ L.foldl max a := by
  induction L with
  | nil => cases hm
  | cons b bs ih =>
    intro a
    rcases List.mem_cons.1 hm with rfl | hm'
    · exact le_trans (le_max_right a m) (le_foldl_max bs (max a m))
    · exact ih hm' (max a b)

lemma foldl_max_mem_or (L : List Int) (a : Int) :
    L.foldl max a = a ∨ L.foldl max a ∈ L := by
  induction L generalizing a with
  | nil => exact Or.inl rfl
  | cons b bs ih =>
    rcases ih (max a b) with he | hm
    · simp only [List.foldl_cons, he]
      rcases max_choice a b with h | h
      · exact Or.inl h
      · exact Or.inr (by simp [h])
    · exact Or.inr (by simp [List.foldl_cons]; exact Or.inr hm)

lemma magsAt_cons (det : Int × Int × Int) (dets : List (Int × Int × Int)) (d r : Int) :
    magsAt (det :: dets) d r =
      if 0 ≤ det.1 ∧ det.1 < N_RANGE ∧ 0 ≤ det.2.1 ∧ det.2.1 < N_DOPPLER ∧
          det.2.1 = d ∧ det.1 = r then
        det.2.2 :: magsAt dets d r
      else magsAt dets d r := by
  simp only [magsAt, List.filter_cons]
  by_cases hc : 0 ≤ det.1 ∧ det.1 < N_RANGE ∧ 0 ≤ det.2.1 ∧ det.2.1 < N_DOPPLER ∧
      det.2.1 = d ∧ det.1 = r
  · rw [if_pos hc, decide_eq_true hc]
    simp
  · rw [if_neg hc, decide_eq_false hc]
    simp

lemma foldl_rdmUpdate_apply (dets : List (Int × Int × Int)) (g : Int → Int → Int)
    (d r : Int) :
    (dets.foldl rdmUpdate g) d r = (magsAt dets d r).foldl max (g d r) := by
  induction dets generalizing g with
  | nil => simp [magsAt]
  | cons det dets ih =>
    obtain ⟨r0, d0, m0⟩ := det
    rw [List.foldl_cons, ih, magsAt_cons]
    by_cases hc : 0 ≤ r0 ∧ r0 < N_RANGE ∧ 0 ≤ d0 ∧ d0 < N_DOPPLER ∧ d0 = d ∧ r0 = r
    · rw [if_pos hc]
      have hg : rdmUpdate g (r0, d0, m0) d r = max (g d r) m0 := by
        simp only [rdmUpdate]
        rw [if_pos ⟨hc.1, hc.2.1, hc.2.2.1, hc.2.2.2.1⟩,
          if_pos ⟨hc.2.2.2.2.1.symm, hc.2.2.2.2.2.symm⟩]
      rw [hg, List.foldl_cons]
    · rw [if_neg hc]
      have hg : rdmUpdate g (r0, d0, m0) d r = g d r := by
        simp only [rdmUpdate]
        by_cases hin : 0 ≤ r0 ∧ r0 < N_RANGE ∧ 0 ≤ d0 ∧ d0 < N_DOPPLER
        · rw [if_pos hin]
          have : ¬(d = d0 ∧ r = r0) := by
            rintro ⟨rfl, rfl⟩
            exact hc ⟨hin.1, hin.2.1, hin.2.2.1, hin.2.2.2, rfl, rfl⟩
          rw [if_neg this]
        · rw [if_neg hin]
      rw [hg]

lemma ratFloor_eq_floor (q : ℚ) : q.floor = ⌊q⌋ :=
  (Rat.floor_def' q).trans Rat.floor_def.symm

lemma notch_start_scan_eq : notch_start_scan = 60 := by
  rw [notch_start_scan, ratFloor_eq_floor]
  norm_num [NOTCH_TIME, SCAN_RATE]

lemma notch_end_scan_eq : notch_end_scan = 80 := by
  rw [notch_end_scan, ratFloor_eq_floor]
  norm_num [NOTCH_TIME, SCAN_RATE]

lemma notch_tri (s : Int) :
    (pre_notch s = true ∧ during_notch s = false ∧ post_notch s = false) ∨
    (pre_notch s = false ∧ during_notch s = true ∧ post_notch s = false) ∨
    (pre_notch s = false ∧ during_notch s = false ∧ post_notch s = true) := by
  simp only [pre_notch, during_notch, post_notch, notch_start_scan_eq, notch_end_scan_eq,
    Bool.and_eq_true, Bool.and_eq_false_iff, decide_eq_true_eq, decide_eq_false_iff_not]
  omega

lemma notch_filter_partition (l : List Int) :
    (l.filter pre_notch).length + (l.filter during_notch).length +
      (l.filter post_notch).length = l.length := by
  induction l with
  | nil => simp
  | cons a l ih =>
    rcases notch_tri a with ⟨h1, h2, h3⟩ | ⟨h1, h2, h3⟩ | ⟨h1, h2, h3⟩ <;>
      simp [List.filter_cons, h1, h2, h3] <;> omega

lemma analyzeTrack_isSome (trk : Track) :
    (analyzeTrack trk).isSome = true ↔
      5 ≤ trk.scans.length ∧ ∃ s ∈ trk.scans, s < notch_start_scan := by
  unfold analyzeTrack
  by_cases h5 : trk.scans.length < 5
  · rw [if_pos h5]
    simp only [Option.isSome_none, Bool.false_eq_true, false_iff, not_and]
    intro h
    omega
  · rw [if_neg h5]
    by_cases hp : trk.scans.any pre_notch
    · rw [hp]
      simp only [Bool.not_true, Bool.false_eq_true, if_false, Option.isSome_some, true_iff]
      refine ⟨by omega, ?_⟩
      rcases List.any_eq_true.1 hp with ⟨s, hs, hps⟩
      exact ⟨s, hs, by simpa [pre_notch] using hps⟩
    · rw [Bool.not_eq_true] at hp
      rw [hp]
      simp only [Bool.not_false, if_true, Option.isSome_none, Bool.false_eq_true, false_iff,
        not_and]
      intro _ hex
      rcases hex with ⟨s, hs, hlt⟩
      have : trk.scans.any pre_notch = true :=
        List.any_eq_true.2 ⟨s, hs, by simpa [pre_notch] using hlt⟩
      rw [hp] at this
      cases this

lemma analyzeNotch_filter (ts : List Track) :
    analyzeNotch ts = analyzeNotch (ts.filter fun t => (analyzeTrack t).isSome) := by
  induction ts with
  | nil => rfl
  | cons t ts ih =>
    cases h : analyzeTrack t with
    | none =>
      simp [analyzeNotch, List.filterMap_cons, List.filter_cons, h] at ih ⊢
      exact ih
    | some r =>
      simp [analyzeNotch, List.filterMap_cons, List.filter_cons, h] at ih ⊢
      exact ih

/-- Exactly when one `load_tracks` line aborts the parse: a `TRK` line whose
id / `R=` / `D=` fields fail (`parseTrkFields`) or whose quality cannot be
determined (`getQ`: a failing first `Q=` token, or a four-token line with no
earlier quality), or a `SCAN_END` line whose count field is missing or fails;
every other line is processed without error. -/
lemma processTokens_none_iff (s : TrkState) (p0 : String) (rest : List String) :
    processTokens s (p0 :: rest) = none ↔
      ((p0 = trkTok ∧ (parseTrkFields (p0 :: rest) = none ∨ getQ s (p0 :: rest) = none)) ∨
       (p0 = scanEndTok ∧ rest.head?.bind eqField = none)) := by
  simp only [processTokens]
  by_cases hp : p0 = trkTok
  · subst hp
    rw [if_pos rfl]
    constructor
    · intro h
      cases hpf : parseTrkFields (trkTok :: rest) with
      | none => exact Or.inl ⟨rfl, Or.inl rfl⟩
      | some v =>
        obtain ⟨i, r, d⟩ := v
        rw [hpf] at h
        cases hq : getQ s (trkTok :: rest) with
        | none => exact Or.inl ⟨rfl, Or.inr rfl⟩
        | some q =>
          rw [hq] at h
          cases h
    · intro h
      rcases h with ⟨_, hpf | hq⟩ | ⟨hse, _⟩
      · rw [hpf]
      · cases hpf : parseTrkFields (trkTok :: rest) with
        | none => rfl
        | some v =>
          obtain ⟨i, r, d⟩ := v
          rw [hq]
      · exact absurd hse trkTok_ne_scanEndTok
  · rw [if_neg hp]
    by_cases hs : p0 = scanEndTok
    · subst hs
      rw [if_pos rfl]
      constructor
      · intro h
        cases ha : rest.head?.bind eqField with
        | none => exact Or.inr ⟨rfl, rfl⟩
        | some active =>
          rw [ha] at h
          cases h
      · intro h
        rcases h with ⟨htrk, _⟩ | ⟨_, ha⟩
        · exact absurd htrk.symm trkTok_ne_scanEndTok
        · rw [ha]
    · rw [if_neg hs]
      constructor
      · intro h
        cases h
      · intro h
        rcases h with ⟨hp', _⟩ | ⟨hs', _⟩
        · exact absurd hp' hp
        · exact absurd hs' hs

/-- Exactly when one `load_detections` line aborts the load: the line has
exactly 3 tokens and one of them fails integer parsing. -/
lemma stepDet_none_iff (ds : List (Int × Int × Int)) (parts : List String) :
    stepDet ds parts = none ↔ parts.length = 3 ∧ parseDetTokens parts = none := by
  unfold stepDet
  by_cases h3 : parts.length = 3
  · rw [if_pos h3]
    cases hp : parseDetTokens parts with
    | none => simp [h3]
    | some t => simp [h3, hp]
  · rw [if_neg h3]
    simp [h3]

lemma rdmUpdate_le (g : Int → Int → Int) (det : Int × Int × Int) (d r : Int) :
    g d r ≤ rdmUpdate g det d r := by
  obtain ⟨r0, d0, m0⟩ := det
  simp only [rdmUpdate]
  by_cases hin : 0 ≤ r0 ∧ r0 < N_RANGE ∧ 0 ≤ d0 ∧ d0 < N_DOPPLER
  · rw [if_pos hin]
    by_cases hc : d = d0 ∧ r = r0
    · rw [if_pos hc]
      exact le_max_left _ _
    · rw [if_neg hc]
  · rw [if_neg hin]

/-! ## Claim theorems -/

/-- **C1.** Every sample appended by a `TRK` line is tagged with the current
scan counter, which equals the number of `SCAN_END` lines processed so far
(starting at 0) and advances by one exactly when a `SCAN_END` line is
processed; in particular `SCAN_END S=6` then `SCAN_END S=4` yields scan
counts `[6, 4]` and a final counter of 2. -/
theorem loadTracks_scan_indexing :
    (∀ lines s, loadTracksAux initTrkState lines = some s →
      s.current_scan = countScanEnd lines) ∧
    (∀ s parts s', processTokens s parts = some s' →
      s'.current_scan = s.current_scan + scanEndInc parts) ∧
    (∀ s parts s', processTokens s parts = some s' → ∀ i,
      findTrack s'.tracks i = findTrack s.tracks i ∨
        ∃ r d q, findTrack s'.tracks i =
          some (appendSample ((findTrack s.tracks i).getD (emptyTrack i)) r d q
            s.current_scan)) ∧
    loadTracks ["SCAN_END S=6", "SCAN_END S=4"] =
      some { tracks := [], scan_counts := [6, 4], current_scan := 2, lastQ := none } := by
  refine ⟨?_, processTokens_scan, processTokens_tracks, by decide⟩
  intro lines s h
  have hs := loadTracksAux_scan lines initTrkState s h
  simpa [initTrkState] using hs

/-- **C2.** After any run of the parser, every track's four parallel series
(range, doppler, quality, scan) have equal length, and one processed `TRK`
line extends all four series of its track by one element or leaves the track
untouched; the spec's two-sample example parses to a track with all four
series of length 2. -/
theorem loadTracks_parallel_lengths :
    (∀ lines s, loadTracks lines = some s →
      ∀ i t, findTrack s.tracks i = some t → eqLens t) ∧
    (∀ s parts s', processTokens s parts = some s' → ∀ i t t',
      findTrack s.tracks i = some t → findTrack s'.tracks i = some t' →
      t' = t ∨
        (t'.range_bins.length = t.range_bins.length + 1 ∧
         t'.doppler_bins.length = t.doppler_bins.length + 1 ∧
         t'.qualities.length = t.qualities.length + 1 ∧
         t'.scans.length = t.scans.length + 1)) ∧
    loadTracks ["TRK 1 R=400 D=68 Q=10", "SCAN_END S=1", "TRK 1 R=404 D=70 Q=9"] =
      some twoSampleState := by
  refine ⟨?_, ?_, by decide⟩
  · intro lines s h i t ht
    refine loadTracksAux_eqLens lines initTrkState s h ?_ i t ht
    intro i t h0
    simp [initTrkState, findTrack] at h0
  · intro s parts s' h i t t' hf hf'
    rcases processTokens_tracks s parts s' h i with he | ⟨r, d, q, he⟩
    · rw [he, hf] at hf'
      exact Or.inl (Option.some.inj hf').symm
    · rw [hf'] at he
      rw [hf] at he
      have ht' : t' = appendSample t r d q s.current_scan := by
        simpa using Option.some.inj he
      subst ht'
      exact Or.inr (by simp [appendSample])

/-- **C3 counterexample.** The `load_rdm` loader of `visualize_rdm.py`, one of
the repository's RangeDopplerMap builders, does not max-hold: folding
detection `(100, 5, 50)` then `(100, 5, 30)` leaves its cell at 30, not 50
(the later, lower magnitude overwrites). -/
theorem load_rdm_overwrites :
    load_rdm [(100, 5, 50), (100, 5, 30)] 100 5 = 30 ∧ (30 : Int) ≠ 50 :=
  ⟨by decide, by decide⟩

/-- **C3 (amended).** The RDM folded by `plot_rdm_with_tracks` is max-hold:
for detections of non-negative magnitude, a cell equals the maximum in-range
magnitude landing on it (0 when none), cells are non-decreasing as detections
are folded in, and the spec's example cell holds 50. -/
theorem buildRDM_max_hold :
    (∀ dets d r, magsAt dets d r = [] → buildRDM dets d r = 0) ∧
    (∀ dets d r, (∀ m ∈ magsAt dets d r, 0 ≤ m) → magsAt dets d r ≠ [] →
      buildRDM dets d r ∈ magsAt dets d r ∧
        ∀ m ∈ magsAt dets d r, m ≤ buildRDM dets d r) ∧
    (∀ dets det d r, buildRDM dets d r ≤ buildRDM (dets ++ [det]) d r) ∧
    buildRDM [(100, 5, 50), (100, 5, 30)] 5 100 = 50 := by
  refine ⟨?_, ?_, ?_, by decide⟩
  · intro dets d r h
    rw [buildRDM, foldl_rdmUpdate_apply, h]
    rfl
  · intro dets d r h0 hne
    rw [buildRDM, foldl_rdmUpdate_apply]
    cases hL : magsAt dets d r with
    | nil => exact absurd hL hne
    | cons m L =>
      have hm0 : 0 ≤ m := h0 m (by rw [hL]; simp)
      have hstep : List.foldl max (zeroGrid d r) (m :: L) = List.foldl max m L := by
        show List.foldl max (max 0 m) L = List.foldl max m L
        rw [max_eq_right hm0]
      rw [hstep]
      constructor
      · rcases foldl_max_mem_or L m with he | hmem
        · rw [he]; simp
        · simp [hmem]
      · intro m' hm'
        rcases List.mem_cons.1 hm' with rfl | hm''
        · exact le_foldl_max L m'
        · exact mem_le_foldl_max L m' hm'' m
  · intro dets det d r
    rw [buildRDM, buildRDM, List.foldl_append, List.foldl_cons, List.foldl_nil]
    exact rdmUpdate_le _ det d r

/-- **C4 counterexample.** A `TRK` line with exactly four tokens — `TRK` id,
`R=`, `D=` and no `Q=` token — does not get quality 0: when it is the first
such line the whole parse fails (the Python loop variable `q` is unbound). -/
theorem loadTracks_four_token_trk_fails :
    loadTracks ["TRK 7 R=1 D=2"] = none := by decide

/-- **C4 (amended).** For a `TRK` line with at least five tokens, quality is
located by scanning the tokens from the fifth onward for the first one
starting with `Q=` (prefix match, position-independent) and defaults to 0
when none starts with `Q=`, without failing; but a `TRK` line with exactly
four tokens does not default: it reuses the quality value left by the most
recent earlier `TRK` line, and fails the whole parse when there is none. -/
theorem loadTracks_quality_prefix_scan :
    (∀ pre t post, (∀ p ∈ pre, strStartsWith p qKey = false) →
      strStartsWith t qKey = true → scanQ (pre ++ t :: post) = eqField t) ∧
    (∀ rest4, (∀ p ∈ rest4, strStartsWith p qKey = false) → scanQ rest4 = some 0) ∧
    (∀ s parts, 5 ≤ parts.length → getQ s parts = scanQ (parts.drop 4)) ∧
    (∀ s parts, parts.length < 5 → getQ s parts = s.lastQ) ∧
    loadTracks ["TRK 7 R=1 D=2 X=9"] = some defaultQState ∧
    loadTracks ["TRK 1 R=1 D=2 Q=7", "TRK 1 R=3 D=4"] = some staleQState := by
  refine ⟨?_, ?_, ?_, ?_, by decide, by decide⟩
  · intro pre t post hpre ht
    unfold scanQ
    rw [find?_first _ pre t post hpre ht]
  · intro rest4 h
    unfold scanQ
    rw [List.find?_eq_none.mpr fun x hx => by simp [h x hx]]
  · intro s parts h
    unfold getQ
    rw [if_pos h]
  · intro s parts h
    unfold getQ
    rw [if_neg (by omega)]

/-- **C5 counterexample.** A `TRK` line with unparseable numeric fields is not
skipped: it aborts the whole parse (Python `ValueError`), so the result is
not what parsing the input without that line gives. -/
theorem loadTracks_malformed_aborts :
    loadTracks ["TRK x R=abc D=1 Q=2"] = none ∧ loadTracks [] = some initTrkState :=
  ⟨by decide, by decide⟩

/-- **C5 (amended).** Lines whose first token is neither `TRK` nor `SCAN_END`
(and blank lines) are skipped, and detection lines with a token count other
than 3 are skipped; a line aborts the parse with an error exactly when a
field the parser actually reads is malformed: for `TRK`, a missing or
non-numeric id / `R=` / `D=` field, a failing first `Q=` token, or exactly
four tokens with no earlier quality to reuse; for `SCAN_END`, a missing or
failing count field; for a detection line, exactly 3 tokens with one of them
non-numeric.  Extra trailing tokens and malformed fields the parser never
reads (such as `VR=`) do not abort. -/
theorem loader_skip_and_abort :
    (∀ s p0 rest, p0 ≠ trkTok → p0 ≠ scanEndTok → processTokens s (p0 :: rest) = some s) ∧
    (∀ s, processTokens s [] = some s) ∧
    (∀ ds parts, parts.length ≠ 3 → stepDet ds parts = some ds) ∧
    (∀ s p0 rest, processTokens s (p0 :: rest) = none ↔
      ((p0 = trkTok ∧ (parseTrkFields (p0 :: rest) = none ∨ getQ s (p0 :: rest) = none)) ∨
       (p0 = scanEndTok ∧ rest.head?.bind eqField = none))) ∧
    (∀ ds parts, stepDet ds parts = none ↔
      parts.length = 3 ∧ parseDetTokens parts = none) ∧
    loadTracks ["TRK 1 R=zz D=2 Q=3"] = none ∧
    loadTracks ["TRK 1 R=4"] = none ∧
    loadTracks ["TRK 1 R=2 D=3 Q=x"] = none ∧
    loadTracks ["SCAN_END"] = none ∧
    loadDetections ["7 8 q9"] = none ∧
    loadTracks ["SCAN_END S=1 2"] = some extraTokState ∧
    loadTracks ["TRK 1 R=2 D=3 VR=xx Q=5"] = some unreadVRState := by
  refine ⟨?_, fun s => rfl, ?_, processTokens_none_iff, stepDet_none_iff,
    by decide, by decide, by decide, by decide, by decide, by decide, by decide⟩
  · intro s p0 rest h1 h2
    simp only [processTokens]
    rw [if_neg h1, if_neg h2]
  · intro ds parts h
    unfold stepDet
    rw [if_neg h]

/-- **C6.** With `notch_start_scan = int(NOTCH_TIME * SCAN_RATE) = 60` and
`notch_end_scan = int((NOTCH_TIME + 10) * SCAN_RATE) = 80`, every integer scan
index satisfies exactly one of the three window predicates pre / during /
post, and the three windows partition any list of sample scan indices. -/
theorem notch_windows_partition :
    notch_start_scan = 60 ∧ notch_end_scan = 80 ∧
    (∀ s : Int, (pre_notch s = true ∧ during_notch s = false ∧ post_notch s = false) ∨
      (pre_notch s = false ∧ during_notch s = true ∧ post_notch s = false) ∨
      (pre_notch s = false ∧ during_notch s = false ∧ post_notch s = true)) ∧
    (∀ l : List Int, (l.filter pre_notch).length + (l.filter during_notch).length +
      (l.filter post_notch).length = l.length) :=
  ⟨notch_start_scan_eq, notch_end_scan_eq, notch_tri, notch_filter_partition⟩

/-- **C7.** The notch analyzer produces a report for a track iff the track
has at least 5 samples and at least one sample in the pre window; excluded
tracks contribute no output; each threshold excludes independently (a track
with 4 samples all pre, and a track with 5 samples none pre, both yield
none). -/
theorem analyzeNotch_inclusion :
    (∀ trk, (analyzeTrack trk).isSome = true ↔
      5 ≤ trk.scans.length ∧ ∃ s ∈ trk.scans, s < notch_start_scan) ∧
    (∀ ts, analyzeNotch ts = analyzeNotch (ts.filter fun t => (analyzeTrack t).isSome)) ∧
    analyzeTrack fourSampleTrack = none ∧
    analyzeTrack noPreTrack = none := by
  refine ⟨analyzeTrack_isSome, analyzeNotch_filter, by decide, ?_⟩
  have h := analyzeTrack_isSome noPreTrack
  rw [notch_start_scan_eq] at h
  cases ha : analyzeTrack noPreTrack with
  | none => rfl
  | some r =>
    rw [ha] at h
    simp only [Option.isSome_some, true_iff] at h
    rcases h.2 with ⟨s, hs, hlt⟩
    simp only [noPreTrack, List.mem_cons, List.not_mem_nil, or_false] at hs
    rcases hs with rfl | rfl | rfl | rfl | rfl <;> omega

/-- **C8.** The unit converters are pure functions agreeing with the spec's
formulas: `bin_to_range_km` equals `(bin / N_RANGE) * MAX_RANGE_KM`, and
`bin_to_velocity_mps` equals
`((bin − N_DOPPLER/2) * PRF[prf_index mod 3] / N_DOPPLER) * (WAVELENGTH_M / 2)`
for every integer bin and every `prf_index`, with the default-argument form
equal to the formula at `prf_index = 0`. -/
theorem converters_match_spec :
    (∀ b : ℤ, bin_to_range_km (b : ℚ) = range_bin_to_km (b : ℚ)) ∧
    (∀ b : ℤ, ∀ k : Nat, bin_to_velocity_mps (b : ℚ) k = doppler_bin_to_mps (b : ℚ) k) ∧
    (∀ b : ℤ, bin_to_velocity_mps0 (b : ℚ) = doppler_bin_to_mps (b : ℚ) 0) := by
  refine ⟨fun b => rfl, fun b k => ?_, fun b => ?_⟩
  · simp only [bin_to_velocity_mps, doppler_bin_to_mps]
    ring
  · simp only [bin_to_velocity_mps0, bin_to_velocity_mps, doppler_bin_to_mps]
    ring

/-- **C9.** A detection is folded into the grid only when
`0 ≤ r < N_RANGE ∧ 0 ≤ d < N_DOPPLER`: an out-of-range detection leaves every
cell of either grid unchanged (silently dropped, no error is possible — the
fold is total), and an in-range detection max-updates exactly its own cell. -/
theorem rdm_bounds_guard :
    (∀ g r d mag d' r', ¬(0 ≤ r ∧ r < N_RANGE ∧ 0 ≤ d ∧ d < N_DOPPLER) →
      rdmUpdate g (r, d, mag) d' r' = g d' r') ∧
    (∀ g r d mag, (0 ≤ r ∧ r < N_RANGE ∧ 0 ≤ d ∧ d < N_DOPPLER) →
      rdmUpdate g (r, d, mag) d r = max (g d r) mag) ∧
    (∀ g r d mag d' r', ¬(d' = d ∧ r' = r) → rdmUpdate g (r, d, mag) d' r' = g d' r') ∧
    (∀ g r d mag r' d', ¬(0 ≤ r ∧ r < N_RANGE ∧ 0 ≤ d ∧ d < N_DOPPLER) →
      loadRdmStep g (r, d, mag) r' d' = g r' d') ∧
    buildRDM [(2000, 5, 50)] 5 2000 = 0 ∧ buildRDM [(-1, 5, 50)] 5 (-1) = 0 := by
  refine ⟨?_, ?_, ?_, ?_, by decide, by decide⟩
  · intro g r d mag d' r' h
    simp only [rdmUpdate]
    rw [if_neg h]
  · intro g r d mag h
    simp only [rdmUpdate]
    rw [if_pos h, if_pos ⟨rfl, rfl⟩]
  · intro g r d mag d' r' h
    simp only [rdmUpdate]
    by_cases hin : 0 ≤ r ∧ r < N_RANGE ∧ 0 ≤ d ∧ d < N_DOPPLER
    · rw [if_pos hin, if_neg h]
    · rw [if_neg hin]
  · intro g r d mag r' d' h
    simp only [loadRdmStep]
    rw [if_neg h]

/-- **C10 counterexample.** `1 2 x` splits into exactly 3 tokens, yet it is
not parsed as a Detection: the non-numeric token aborts the load with an
error. -/
theorem loadDetections_three_token_nonnumeric :
    (splitWS ("1 2 x")).length = 3 ∧ loadDetections ["1 2 x"] = none :=
  ⟨by decide, by decide⟩

/-- **C10 (amended).** The detection loader parses a line as a Detection iff
it splits into exactly 3 tokens each parseable as an integer; lines with a
token count other than 3 (fewer or more) are silently ignored; a 3-token
line with a non-numeric token aborts the load with an error. -/
theorem loadDetections_exactly_three_tokens :
    (∀ ds parts, parts.length ≠ 3 → stepDet ds parts = some ds) ∧
    (∀ ds parts t, parts.length = 3 → parseDetTokens parts = some t →
      stepDet ds parts = some (ds ++ [t])) ∧
    (∀ ds parts, parts.length = 3 → parseDetTokens parts = none →
      stepDet ds parts = none) ∧
    loadDetections ["1 2 3", "4 5", "6 7 8 9", "10 11 12"] =
      some [(1, 2, 3), (10, 11, 12)] := by
  refine ⟨?_, ?_, ?_, by decide⟩
  · intro ds parts h
    unfold stepDet
    rw [if_neg h]
  · intro ds parts t h3 hp
    unfold stepDet
    rw [if_pos h3, hp]
  · intro ds parts h3 hp
    unfold stepDet
    rw [if_pos h3, hp]

end ADR
